import Mathlib

/-!
Verification development for the TCP sliding-window simulation.

Receiver side (cmd/server/main.go): `SimpleTracker` with `recordPacket`
and the wraparound-aware gap computation.

Sender side (cmd/client/new_client.go): `Client` with `sendNewPackets`,
`handleRetransmissions`, `processAcks` and `adjustWindow`, modelled as a
transition system whose drop-simulator coin flips and clock readings are
inputs to each operation.

Go machine integers are modelled as `Int`/`Nat`; the values reachable in
these programs stay far below any overflow boundary.  `rand.Float64()`
draws are modelled as rationals in `[0, 1)`; the comparison
`rand.Float64() > dropProbability` is an exact order comparison on the
drawn value, so this abstraction is faithful for the probabilities 0 and
1 and for which-branch questions generally.
-/

/-- `maxSequenceNumber = 1 << 16` (both client and server files). -/
def maxSequenceNumber : Nat := 65536

/-- `targetPackets = 500_000` (cmd/client/new_client.go, cmd/server/main.go). -/
def targetPackets : Nat := 500000

/-- `minWindowSize = 10` (cmd/client/new_client.go). -/
def minWindowSize : Nat := 10

/-- `maxWindowSize = 1000` (cmd/client/new_client.go). -/
def maxWindowSize : Nat := 1000

/-- `retransmitAfter = 100 * time.Millisecond` (cmd/client/new_client.go);
time is modelled in milliseconds. -/
def retransmitAfter : Nat := 100

/-- Receiver statistics, `SimpleTracker` in cmd/server/main.go.  Counters are
Go `int64`/`int`, modelled as `Int`. -/
structure SimpleTracker where
  lastSeq : Int
  wrapCount : Int
  receivedCount : Int
  missingCount : Int
  lastGap : Int
deriving DecidableEq

/-- `newSimpleTracker` (cmd/server/main.go lines 29-33): `lastSeq = -1`
means no packet received yet; all counters start at 0. -/
def newSimpleTracker : SimpleTracker :=
  { lastSeq := -1, wrapCount := 0, receivedCount := 0, missingCount := 0, lastGap := 0 }

/-- The wraparound fold applied to a raw gap `seq - lastSeq`
(cmd/server/main.go lines 50-56): one fold by `± maxSequenceNumber` when the
magnitude exceeds half the sequence space. -/
def foldGap (g : Int) : Int :=
  if g < -((maxSequenceNumber : Int) / 2) then g + (maxSequenceNumber : Int)
  else if g > (maxSequenceNumber : Int) / 2 then g - (maxSequenceNumber : Int)
  else g

/-- The wraparound-aware distance `a - b` as computed inside `recordPacket`
(cmd/server/main.go lines 46-56), as a pure function. -/
def distance (a b : Int) : Int := foldGap (a - b)

/-- `recordPacket` (cmd/server/main.go lines 37-70).  The first packet only
initialises `lastSeq`; afterwards the folded gap drives `wrapCount` (forward
fold only), `missingCount` (`gap - 1` when `gap > 0`) and `lastSeq`
(advanced only when `gap > 0`).  `receivedCount` and `lastGap` are updated
on every non-initial call. -/
def recordPacket (st : SimpleTracker) (seq : Int) : SimpleTracker :=
  if st.lastSeq = -1 then
    { st with lastSeq := seq, receivedCount := st.receivedCount + 1 }
  else
    let gap0 := seq - st.lastSeq
    let gap := foldGap gap0
    let wrap := if gap0 < -((maxSequenceNumber : Int) / 2) then st.wrapCount + 1 else st.wrapCount
    if gap > 0 then
      { st with lastSeq := seq, wrapCount := wrap,
                missingCount := st.missingCount + (gap - 1),
                receivedCount := st.receivedCount + 1, lastGap := gap }
    else
      { st with wrapCount := wrap, receivedCount := st.receivedCount + 1, lastGap := gap }

/-- `IncrementSeq` from the `protocol` package (README.md embedded source):
`(seq + 1) % MaxSequenceNumber` with `MaxSequenceNumber = 65535`, where the
addition itself is Go `uint16` arithmetic (wrapping modulo 65536). -/
def IncrementSeq (seq : Nat) : Nat := ((seq + 1) % 65536) % 65535

/-- The literal line the server answers a handshake with. -/
def successMsg : String := "success"

/-- The literal line the client opens the handshake with. -/
def networkMsg : String := "network"

/-- An arbitrary non-`network` opening line, used as a concrete input. -/
def badLine : String := "attack at dawn"

/-- The handshake of `handleConnection` in cmd/server/main.go (lines
117-129) as a function of the client's first line: if no line arrives the
connection closes with no reply (`none`); otherwise the server replies
`success` without inspecting the line's content. -/
def handshakeReply : Option String → Option String
  | none => none
  | some _ => some successMsg

/-- The handshake of the map-based `Server.handleConnection` (second server
in cmd/server/main.go, lines 247-262): a read error closes the connection
with no reply; a trimmed first line differing from `network` also closes it
with no reply; only the literal `network` earns `success`. -/
def serverHandshakeReply : Option String → Option String
  | none => none
  | some line => if line.trim = networkMsg then some successMsg else none

/-- Sender-side packet record (cmd/client/new_client.go lines 23-27);
`sendTime` is a millisecond timestamp. -/
structure Packet where
  sequenceNumber : Nat
  sendTime : Nat
  attempts : Nat
deriving DecidableEq

/-- Sender state, `Client` in cmd/client/new_client.go lines 29-39.  The Go
`map[int]*Packet` is modelled as an association list with distinct keys
(insertion erases any previous binding, as a Go map assignment does). -/
structure Client where
  window : List (Nat × Packet)
  windowStart : Nat
  windowSize : Nat
  nextSequence : Nat
  totalSent : Nat
  totalDropped : Nat
  lastAckTime : Nat
deriving DecidableEq

/-- The keys of the window map. -/
def keys (w : List (Nat × Packet)) : List Nat := w.map Prod.fst

/-- Removal of a key, as `delete(c.window, seq)` on the association list. -/
def eraseKey (k : Nat) (w : List (Nat × Packet)) : List (Nat × Packet) :=
  w.filter (fun e => e.1 ≠ k)

/-- Go map assignment `c.window[seq] = &Packet{...}`: any old binding of the
key is dropped and the new one added. -/
def insertKey (k : Nat) (v : Packet) (w : List (Nat × Packet)) : List (Nat × Packet) :=
  (k, v) :: eraseKey k w

/-- `NewClient` (cmd/client/new_client.go lines 41-48): empty window,
`windowSize = minWindowSize`, `lastAckTime = time.Now()` (the parameter);
remaining fields are Go zero values. -/
def NewClient (now : Nat) : Client :=
  { window := [], windowStart := 0, windowSize := minWindowSize, nextSequence := 0,
    totalSent := 0, totalDropped := 0, lastAckTime := now }

/-- The state change of one deliverable admission attempt
(cmd/client/new_client.go lines 105-114): a fresh packet with `attempts = 1` and
`sendTime = now` is installed under `seq`, and the attempt consumes the
sequence number and counts in `totalSent`. -/
def admitDeliver (seq now : Nat) (c : Client) : Client :=
  { c with window := insertKey seq ⟨seq, now, 1⟩ c.window,
           nextSequence := c.nextSequence + 1,
           totalSent := c.totalSent + 1 }

/-- The state change of one simulated-dropped admission attempt
(cmd/client/new_client.go lines 115-120): only `totalDropped` grows,
nothing enters the window; the sequence number is still consumed and
`totalSent` still counts the attempt. -/
def admitDrop (c : Client) : Client :=
  { c with totalDropped := c.totalDropped + 1,
           nextSequence := c.nextSequence + 1,
           totalSent := c.totalSent + 1 }

/-- The admission loop of `sendNewPackets` (cmd/client/new_client.go lines
105-121).  `fuel` is the remaining iteration budget (`available` at entry),
`i` the attempt index inside this call; `coins i = true` models
`rand.Float64() > dropProbability` holding at the i-th attempt.  Returns the
updated client and the batch of sequence numbers actually written. -/
def sendLoop (coins : Nat → Bool) (now : Nat) :
    Nat → Nat → Client → Client × List Nat
  | 0, _, c => (c, [])
  | fuel + 1, i, c =>
    if c.totalSent < targetPackets then
      let seq := c.nextSequence % maxSequenceNumber
      if coins i then
        ((sendLoop coins now fuel (i + 1) (admitDeliver seq now c)).1,
          seq :: (sendLoop coins now fuel (i + 1) (admitDeliver seq now c)).2)
      else
        sendLoop coins now fuel (i + 1) (admitDrop c)
    else (c, [])

/-- `sendNewPackets` (cmd/client/new_client.go lines 93-131): no-op when the
window is full, otherwise run the admission loop for
`available = windowSize - len(window)` attempts. -/
def sendNewPackets (coins : Nat → Bool) (now : Nat) (c : Client) : Client × List Nat :=
  if c.window.length ≥ c.windowSize then (c, [])
  else sendLoop coins now (c.windowSize - c.window.length) 0 c

/-- The retransmission scan of `handleRetransmissions` (cmd/client/
new_client.go lines 70-80) over the window entries, with per-entry coin
flips.  An entry is due when `now - sendTime ≥ retransmitAfter`; a due and
deliverable entry gets `sendTime := now`, `attempts + 1` and joins the
batch; a due but simulated-dropped entry is left untouched and counted.
Returns the new entry list, the batch, and the drop count. -/
def retransLoop (coins : Nat → Bool) (now : Nat) :
    List (Nat × Packet) → Nat → List (Nat × Packet) × List Nat × Nat
  | [], _ => ([], [], 0)
  | e :: rest, i =>
    let r := retransLoop coins now rest (i + 1)
    if retransmitAfter ≤ now - e.2.sendTime then
      if coins i then
        ((e.1, ⟨e.2.sequenceNumber, now, e.2.attempts + 1⟩) :: r.1, e.1 :: r.2.1, r.2.2)
      else
        (e :: r.1, r.2.1, r.2.2 + 1)
    else (e :: r.1, r.2.1, r.2.2)

/-- `handleRetransmissions` (cmd/client/new_client.go lines 65-91). -/
def handleRetransmissions (coins : Nat → Bool) (now : Nat) (c : Client) :
    Client × List Nat :=
  let r := retransLoop coins now c.window 0
  ({ c with window := r.1, totalDropped := c.totalDropped + r.2.2 }, r.2.1)

/-- One acknowledged token inside `processAcks` (cmd/client/new_client.go
lines 137-153).  `none` is a token `strconv.Atoi` rejected (skipped);
`some seq` deletes the key, refreshes `lastAckTime` and advances
`windowStart` once when it equals the acked number (the Go `for` loop body
runs at most once, since after `windowStart = (windowStart+1) % 65536` the
loop guard `windowStart == seq` is false). -/
def ackStep (now : Nat) (c : Client) (a : Option Int) : Client :=
  match a with
  | none => c
  | some seq =>
    { c with window := c.window.filter (fun e => ((e.1 : Int) ≠ seq)),
             lastAckTime := now,
             windowStart :=
               if (c.windowStart : Int) = seq then (c.windowStart + 1) % maxSequenceNumber
               else c.windowStart }

/-- `processAcks` (cmd/client/new_client.go lines 133-154) over a parsed
batch line. -/
def processAcks (now : Nat) (acks : List (Option Int)) (c : Client) : Client :=
  acks.foldl (ackStep now) c

/-- `adjustWindow` (cmd/client/new_client.go lines 50-63): grow by one when
acks are recent, the window is not fully occupied and the size is below the
maximum; otherwise (acks delayed) halve, clamped to `minWindowSize`. -/
def adjustWindow (now : Nat) (c : Client) : Client :=
  if now - c.lastAckTime < 100 then
    if c.window.length < c.windowSize ∧ c.windowSize < maxWindowSize then
      { c with windowSize := min (c.windowSize + 1) maxWindowSize }
    else c
  else
    { c with windowSize := max (c.windowSize / 2) minWindowSize }

/-- The completion condition checked by the sender's main loop
(cmd/client/new_client.go line 233): `totalSent >= targetPackets`. -/
def isComplete (c : Client) : Bool := targetPackets ≤ c.totalSent

/-- One interleaving step of the sender: any of the four operations, with
arbitrary coin flips and clock reading (the ACK reader goroutine and the
four tickers serialise all four through the client mutex). -/
inductive Step : Client → Client → Prop
  | send (coins : Nat → Bool) (now : Nat) (c : Client) :
      Step c (sendNewPackets coins now c).1
  | retransmit (coins : Nat → Bool) (now : Nat) (c : Client) :
      Step c (handleRetransmissions coins now c).1
  | acks (now : Nat) (l : List (Option Int)) (c : Client) :
      Step c (processAcks now l c)
  | adjust (now : Nat) (c : Client) :
      Step c (adjustWindow now c)

/-- Reachability from a fresh client (any start-of-run clock value). -/
def Reachable (c : Client) : Prop :=
  ∃ t0, Relation.ReflTransGen Step (NewClient t0) c

/-- `shouldDeliver r p`: the drop-simulator comparison
`rand.Float64() > dropProbability` with draw `r` and probability `p`. -/
def shouldDeliver (r p : ℚ) : Bool := p < r

/-- The coin stream induced by a stream of `rand.Float64()` draws at a given
drop probability. -/
def coinsOf (rs : Nat → ℚ) (p : ℚ) : Nat → Bool := fun i => shouldDeliver (rs i) p

/-- A valid stream of `rand.Float64()` draws: every value lies in `[0, 1)`. -/
def DrawOK (rs : Nat → ℚ) : Prop := ∀ i, 0 ≤ rs i ∧ rs i < 1

/-- Sender step with the coin flips produced by the drop simulator at a
fixed drop probability `p` (the machine actually run by the code, with
`p = dropProbability`). -/
inductive StepDrop (p : ℚ) : Client → Client → Prop
  | send (rs : Nat → ℚ) (now : Nat) (c : Client) (h : DrawOK rs) :
      StepDrop p c (sendNewPackets (coinsOf rs p) now c).1
  | retransmit (rs : Nat → ℚ) (now : Nat) (c : Client) (h : DrawOK rs) :
      StepDrop p c (handleRetransmissions (coinsOf rs p) now c).1
  | acks (now : Nat) (l : List (Option Int)) (c : Client) :
      StepDrop p c (processAcks now l c)
  | adjust (now : Nat) (c : Client) :
      StepDrop p c (adjustWindow now c)

/-- Reachability under drop probability `p`. -/
def ReachableDrop (p : ℚ) (c : Client) : Prop :=
  ∃ t0, Relation.ReflTransGen (StepDrop p) (NewClient t0) c

/-- Coin stream: every attempt deliverable. -/
def coinsTrue : Nat → Bool := fun _ => true

/-- Coin stream: every attempt simulated-dropped. -/
def coinsNone : Nat → Bool := fun _ => false

/-- Coin stream: only the first attempt of the call is deliverable. -/
def coinsFirst : Nat → Bool := fun i => i = 0

/-- The number of window entries that a retransmission scan finds due but
simulated-dropped (specification-side counter for the `totalDropped`
accounting of `handleRetransmissions`). -/
def dueDroppedCount (coins : Nat → Bool) (now : Nat) :
    List (Nat × Packet) → Nat → Nat
  | [], _ => 0
  | e :: rest, i =>
    (if retransmitAfter ≤ now - e.2.sendTime ∧ coins i = false then 1 else 0) +
      dueDroppedCount coins now rest (i + 1)

/-- Trace state: a fresh client admits a full window of 10 packets, all
deliverable, at time 0. -/
def ovState1 : Client := (sendNewPackets coinsTrue 0 (NewClient 0)).1

/-- Trace state: packet 0 is acknowledged, occupancy drops to 9. -/
def ovState2 : Client := processAcks 0 [some 0] ovState1

/-- Trace state: a timely window adjustment grows the size to 11. -/
def ovState3 : Client := adjustWindow 50 ovState2

/-- Trace state: admission refills the window to 11 in-flight packets. -/
def ovState4 : Client := (sendNewPackets coinsTrue 0 ovState3).1

/-- Trace state: a late window adjustment halves the size back to 10 while
11 packets are still in flight. -/
def ovState5 : Client := adjustWindow 200 ovState4

/-- Trace state: one admission call where only the first of ten attempts is
deliverable: one packet in flight, nine admission drops. -/
def oneInFlight : Client := (sendNewPackets coinsFirst 0 (NewClient 0)).1

/-- The retransmission scan at time 200 on `oneInFlight` where the drop
simulator drops the (due) retry again. -/
def retryAfterDrop : Client × List Nat := handleRetransmissions coinsNone 200 oneInFlight

/-- One admission tick under permanent simulated drop (drop probability 1):
every coin flip refuses delivery. -/
def dropAllStep (c : Client) : Client := (sendNewPackets coinsNone 0 c).1

/-- `n` admission ticks under permanent simulated drop, from a fresh
client. -/
def dropAllIter (n : Nat) : Client := dropAllStep^[n] (NewClient 0)

/-- C4: counterexample.  At `a = 0`, `b = 32768` the raw gap is `-32768`,
which the fold leaves untouched (the fold condition is strict), so the
distance is `-32768`, outside the claimed half-open interval
`(-32768, 32768]`. -/
theorem distance_range_counterexample :
    distance 0 32768 = -32768 ∧ ¬ (-(32768 : Int) < distance 0 32768) := by
  constructor
  · decide
  · decide

/-- C4 (amended): for sequence numbers `a, b ∈ [0, 65536)` the folded
distance lies in the closed interval `[-32768, 32768]`; both endpoints are
attainable because a raw gap of exactly `±32768` is never folded. -/
theorem distance_range (a b : Int) (ha0 : 0 ≤ a) (ha : a < 65536)
    (hb0 : 0 ≤ b) (hb : b < 65536) :
    -32768 ≤ distance a b ∧ distance a b ≤ 32768 := by
  simp only [distance, foldGap, maxSequenceNumber]
  norm_num
  split_ifs <;> omega

/-- C4: witness for `distance_range` at `a = 3`, `b = 7`. -/
theorem distance_range_witness :
    -32768 ≤ distance 3 7 ∧ distance 3 7 ≤ 32768 :=
  distance_range 3 7 (by norm_num) (by norm_num) (by norm_num) (by norm_num)

/-- C5: evaluation at the failing input.  The spec increment
`(seq + 1) mod 65536` satisfies `distance (increment a) a = 1` at
`a = 65534`, but `IncrementSeq` reduces modulo 65535 (despite its constant
being commented `// 2^16`), so `IncrementSeq 65534 = 0` and the distance
from it to 65534 is 2, not 1. -/
theorem incrementSeq_bug :
    IncrementSeq 65534 = 0 ∧
    (65534 + 1) % maxSequenceNumber = 65535 ∧
    distance ((65534 + 1 : Nat) % maxSequenceNumber : Nat) 65534 = 1 ∧
    distance (IncrementSeq 65534 : Nat) 65534 = 2 := by
  refine ⟨by decide, by decide, by decide, by decide⟩

/-- The spec-side increment `(seq + 1) mod 65536` does satisfy the
distance-one property on the whole sequence space (general form of the
property that `IncrementSeq` breaks at 65534). -/
theorem distance_increment (a : Nat) (h : a < 65536) :
    distance ((a + 1) % maxSequenceNumber : Nat) a = 1 := by
  simp only [distance, foldGap, maxSequenceNumber]
  rcases Nat.lt_or_ge a 65535 with h1 | h1
  · have hm : (a + 1) % 65536 = a + 1 := Nat.mod_eq_of_lt (by omega)
    rw [hm]
    push_cast
    norm_num
  · have ha : a = 65535 := by omega
    subst ha
    norm_num

/-- One `recordPacket` call never decreases `missingCount`. -/
theorem recordPacket_missing_mono (st : SimpleTracker) (seq : Int) :
    st.missingCount ≤ (recordPacket st seq).missingCount := by
  simp only [recordPacket, distance, foldGap, maxSequenceNumber]
  norm_num
  split_ifs <;> simp <;> omega

/-- If `missingCount` changes across one `recordPacket` call, the tracker
was initialised and the folded gap was strictly positive (in fact at
least 2, since a gap of 1 adds `gap - 1 = 0`). -/
theorem recordPacket_missing_change (st : SimpleTracker) (seq : Int)
    (h : (recordPacket st seq).missingCount ≠ st.missingCount) :
    st.lastSeq ≠ -1 ∧ 0 < distance seq st.lastSeq := by
  by_cases hinit : st.lastSeq = -1
  · exfalso
    apply h
    simp [recordPacket, hinit]
  · refine ⟨hinit, ?_⟩
    by_contra hgap
    apply h
    simp only [recordPacket, distance, foldGap, maxSequenceNumber] at hgap ⊢
    norm_num at hgap ⊢
    split_ifs at hgap ⊢ <;> simp_all <;> omega

/-- An arrival whose folded gap is `≤ 0` changes neither `missingCount`
nor `lastSeq`. -/
theorem recordPacket_nonpos_gap (st : SimpleTracker) (seq : Int)
    (hinit : st.lastSeq ≠ -1) (hgap : distance seq st.lastSeq ≤ 0) :
    (recordPacket st seq).missingCount = st.missingCount ∧
    (recordPacket st seq).lastSeq = st.lastSeq := by
  simp only [recordPacket, distance, foldGap, maxSequenceNumber] at hgap ⊢
  norm_num at hgap ⊢
  split_ifs at hgap ⊢ <;> simp_all <;> omega

/-- C8: across any sequence of `recordPacket` calls `missingCount` is
non-decreasing; a single call changes it only when the wraparound-adjusted
gap is strictly positive; and an arrival with gap `≤ 0` leaves both
`missingCount` and `lastSeq` unchanged. -/
theorem tracker_missing_monotone :
    (∀ (seqs : List Int) (st : SimpleTracker),
      st.missingCount ≤ (seqs.foldl recordPacket st).missingCount) ∧
    (∀ (st : SimpleTracker) (seq : Int),
      (recordPacket st seq).missingCount ≠ st.missingCount →
        st.lastSeq ≠ -1 ∧ 0 < distance seq st.lastSeq) ∧
    (∀ (st : SimpleTracker) (seq : Int), st.lastSeq ≠ -1 →
      distance seq st.lastSeq ≤ 0 →
        (recordPacket st seq).missingCount = st.missingCount ∧
        (recordPacket st seq).lastSeq = st.lastSeq) := by
  refine ⟨?_, recordPacket_missing_change, recordPacket_nonpos_gap⟩
  intro seqs
  induction seqs with
  | nil => intro st; simp
  | cons x xs ih =>
      intro st
      calc st.missingCount ≤ (recordPacket st x).missingCount :=
              recordPacket_missing_mono st x
        _ ≤ (List.foldl recordPacket (recordPacket st x) xs).missingCount := ih _
        _ = ((x :: xs).foldl recordPacket st).missingCount := by simp

/-- C8: witness for `tracker_missing_monotone`: the monotonicity part on a
concrete run, the change part vacuously via its contrapositive at a
duplicate arrival, and the gap-`≤ 0` part at a duplicate arrival (gap 0)
to an initialised tracker. -/
theorem tracker_missing_monotone_witness :
    newSimpleTracker.missingCount ≤
      (([10, 15, 3] : List Int).foldl recordPacket newSimpleTracker).missingCount ∧
    ((recordPacket ⟨5, 0, 1, 0, 0⟩ 5).missingCount = (⟨5, 0, 1, 0, 0⟩ : SimpleTracker).missingCount ∧
     (recordPacket ⟨5, 0, 1, 0, 0⟩ 5).lastSeq = (⟨5, 0, 1, 0, 0⟩ : SimpleTracker).lastSeq) :=
  ⟨tracker_missing_monotone.1 [10, 15, 3] newSimpleTracker,
   tracker_missing_monotone.2.2 ⟨5, 0, 1, 0, 0⟩ 5 (by decide) (by decide)⟩

/-- C9: feeding `65534, 65535, 0, 1` to a fresh tracker wraps exactly once
(at the `65535 → 0` transition), leaves `missingCount = 0` and ends with
`receivedCount = 4`. -/
theorem tracker_wrap_scenario :
    (([65534, 65535, 0, 1] : List Int).foldl recordPacket newSimpleTracker).wrapCount = 1 ∧
    (([65534, 65535, 0, 1] : List Int).foldl recordPacket newSimpleTracker).missingCount = 0 ∧
    (([65534, 65535, 0, 1] : List Int).foldl recordPacket newSimpleTracker).receivedCount = 4 := by
  refine ⟨by decide, by decide, by decide⟩

/-- Erasing a key never lengthens the window. -/
theorem eraseKey_length_le (k : Nat) (w : List (Nat × Packet)) :
    (eraseKey k w).length ≤ w.length :=
  List.length_filter_le _ _

/-- A map assignment grows the window by at most one entry. -/
theorem insertKey_length_le (k : Nat) (v : Packet) (w : List (Nat × Packet)) :
    (insertKey k v w).length ≤ w.length + 1 := by
  simp only [insertKey, List.length_cons]
  exact Nat.succ_le_succ (eraseKey_length_le k w)

/-- A key present after a map assignment is the assigned key or was already
present. -/
theorem mem_keys_insertKey (k : Nat) (v : Packet) (w : List (Nat × Packet))
    (s : Nat) (h : s ∈ keys (insertKey k v w)) : s = k ∨ s ∈ keys w := by
  simp only [keys, insertKey, eraseKey, List.map_cons, List.mem_cons] at h
  rcases h with h | h
  · exact Or.inl h
  · right
    simp only [keys, List.mem_map] at h ⊢
    obtain ⟨e, he, hes⟩ := h
    exact ⟨e, (List.mem_filter.mp he).1, hes⟩

/-- The window after one deliverable admission attempt. -/
@[simp] theorem admitDeliver_window (seq now : Nat) (c : Client) :
    (admitDeliver seq now c).window = insertKey seq ⟨seq, now, 1⟩ c.window := rfl

/-- Window size is unchanged by a deliverable admission attempt. -/
@[simp] theorem admitDeliver_windowSize (seq now : Nat) (c : Client) :
    (admitDeliver seq now c).windowSize = c.windowSize := rfl

/-- `totalSent` counts a deliverable admission attempt. -/
@[simp] theorem admitDeliver_totalSent (seq now : Nat) (c : Client) :
    (admitDeliver seq now c).totalSent = c.totalSent + 1 := rfl

/-- `totalDropped` is unchanged by a deliverable admission attempt. -/
@[simp] theorem admitDeliver_totalDropped (seq now : Nat) (c : Client) :
    (admitDeliver seq now c).totalDropped = c.totalDropped := rfl

/-- `nextSequence` advances on a deliverable admission attempt. -/
@[simp] theorem admitDeliver_nextSequence (seq now : Nat) (c : Client) :
    (admitDeliver seq now c).nextSequence = c.nextSequence + 1 := rfl

/-- `lastAckTime` is unchanged by a deliverable admission attempt. -/
@[simp] theorem admitDeliver_lastAckTime (seq now : Nat) (c : Client) :
    (admitDeliver seq now c).lastAckTime = c.lastAckTime := rfl

/-- The window is unchanged by a simulated-dropped admission attempt. -/
@[simp] theorem admitDrop_window (c : Client) :
    (admitDrop c).window = c.window := rfl

/-- Window size is unchanged by a simulated-dropped admission attempt. -/
@[simp] theorem admitDrop_windowSize (c : Client) :
    (admitDrop c).windowSize = c.windowSize := rfl

/-- `totalSent` counts a simulated-dropped admission attempt. -/
@[simp] theorem admitDrop_totalSent (c : Client) :
    (admitDrop c).totalSent = c.totalSent + 1 := rfl

/-- `totalDropped` counts a simulated-dropped admission attempt. -/
@[simp] theorem admitDrop_totalDropped (c : Client) :
    (admitDrop c).totalDropped = c.totalDropped + 1 := rfl

/-- `nextSequence` advances on a simulated-dropped admission attempt. -/
@[simp] theorem admitDrop_nextSequence (c : Client) :
    (admitDrop c).nextSequence = c.nextSequence + 1 := rfl

/-- `lastAckTime` is unchanged by a simulated-dropped admission attempt. -/
@[simp] theorem admitDrop_lastAckTime (c : Client) :
    (admitDrop c).lastAckTime = c.lastAckTime := rfl

/-- The admission loop does not touch the window size. -/
theorem sendLoop_windowSize (coins : Nat → Bool) (now : Nat) :
    ∀ (fuel i : Nat) (c : Client),
      (sendLoop coins now fuel i c).1.windowSize = c.windowSize := by
  intro fuel
  induction fuel with
  | zero => intro i c; rfl
  | succ n ih =>
      intro i c
      simp only [sendLoop]
      split_ifs with h1 h2
      · dsimp only
        rw [ih (i + 1) (admitDeliver (c.nextSequence % maxSequenceNumber) now c)]
        rfl
      · rw [ih (i + 1) (admitDrop c)]
        rfl
      · rfl

/-- The admission loop adds at most `fuel` window entries. -/
theorem sendLoop_window_length (coins : Nat → Bool) (now : Nat) :
    ∀ (fuel i : Nat) (c : Client),
      (sendLoop coins now fuel i c).1.window.length ≤ c.window.length + fuel := by
  intro fuel
  induction fuel with
  | zero => intro i c; simp [sendLoop]
  | succ n ih =>
      intro i c
      simp only [sendLoop]
      split_ifs with h1 h2
      · dsimp only
        have h3 := ih (i + 1) (admitDeliver (c.nextSequence % maxSequenceNumber) now c)
        rw [admitDeliver_window] at h3
        have h4 := insertKey_length_le (c.nextSequence % maxSequenceNumber)
          ⟨c.nextSequence % maxSequenceNumber, now, 1⟩ c.window
        omega
      · have h3 := ih (i + 1) (admitDrop c)
        rw [admitDrop_window] at h3
        omega
      · simp

/-- Every key in the window after the admission loop was already present or
is in the batch the loop returned. -/
theorem sendLoop_keys (coins : Nat → Bool) (now : Nat) :
    ∀ (fuel i : Nat) (c : Client) (s : Nat),
      s ∈ keys (sendLoop coins now fuel i c).1.window →
        s ∈ keys c.window ∨ s ∈ (sendLoop coins now fuel i c).2 := by
  intro fuel
  induction fuel with
  | zero => intro i c s h; exact Or.inl h
  | succ n ih =>
      intro i c s
      simp only [sendLoop]
      split_ifs with h1 h2
      · intro h
        dsimp only at h ⊢
        rcases ih (i + 1) (admitDeliver (c.nextSequence % maxSequenceNumber) now c) s h
          with h3 | h3
        · rw [admitDeliver_window] at h3
          rcases mem_keys_insertKey _ _ _ s h3 with h4 | h4
          · subst h4
            exact Or.inr (List.mem_cons_self _ _)
          · exact Or.inl h4
        · exact Or.inr (List.mem_cons_of_mem _ h3)
      · intro h
        rcases ih (i + 1) (admitDrop c) s h with h3 | h3
        · rw [admitDrop_window] at h3
          exact Or.inl h3
        · exact Or.inr h3
      · intro h
        exact Or.inl h

/-- Counting identity of the admission loop: the growth of `totalSent` is
the batch length plus the growth of `totalDropped` (every attempt bumps
`totalSent` exactly once, whether delivered or dropped). -/
theorem sendLoop_counts (coins : Nat → Bool) (now : Nat) :
    ∀ (fuel i : Nat) (c : Client),
      (sendLoop coins now fuel i c).1.totalSent + c.totalDropped =
        c.totalSent + (sendLoop coins now fuel i c).2.length +
          (sendLoop coins now fuel i c).1.totalDropped := by
  intro fuel
  induction fuel with
  | zero => intro i c; simp [sendLoop]
  | succ n ih =>
      intro i c
      simp only [sendLoop]
      split_ifs with h1 h2
      · dsimp only
        have h3 := ih (i + 1) (admitDeliver (c.nextSequence % maxSequenceNumber) now c)
        rw [admitDeliver_totalSent, admitDeliver_totalDropped] at h3
        simp only [List.length_cons]
        omega
      · have h3 := ih (i + 1) (admitDrop c)
        rw [admitDrop_totalSent, admitDrop_totalDropped] at h3
        omega
      · simp [sendLoop]

/-- `handleRetransmissions` leaves the window size unchanged. -/
@[simp] theorem handleRetransmissions_windowSize (coins : Nat → Bool) (now : Nat) (c : Client) :
    (handleRetransmissions coins now c).1.windowSize = c.windowSize := rfl

/-- The window after `handleRetransmissions` is the scanned entry list. -/
@[simp] theorem handleRetransmissions_window (coins : Nat → Bool) (now : Nat) (c : Client) :
    (handleRetransmissions coins now c).1.window = (retransLoop coins now c.window 0).1 := rfl

/-- `totalDropped` after `handleRetransmissions` grows by the scan's drop
count. -/
@[simp] theorem handleRetransmissions_totalDropped (coins : Nat → Bool) (now : Nat) (c : Client) :
    (handleRetransmissions coins now c).1.totalDropped =
      c.totalDropped + (retransLoop coins now c.window 0).2.2 := rfl

/-- The batch returned by `handleRetransmissions` is the scan's batch. -/
@[simp] theorem handleRetransmissions_batch (coins : Nat → Bool) (now : Nat) (c : Client) :
    (handleRetransmissions coins now c).2 = (retransLoop coins now c.window 0).2.1 := rfl

/-- The retransmission scan preserves the number of window entries. -/
theorem retransLoop_length (coins : Nat → Bool) (now : Nat) :
    ∀ (w : List (Nat × Packet)) (j : Nat),
      (retransLoop coins now w j).1.length = w.length := by
  intro w
  induction w with
  | nil => intro j; rfl
  | cons e rest ih =>
      intro j
      simp only [retransLoop]
      split_ifs <;> simp [ih]

/-- The scan's drop count is the number of due entries whose coin flip
refused delivery. -/
theorem retransLoop_drops (coins : Nat → Bool) (now : Nat) :
    ∀ (w : List (Nat × Packet)) (j : Nat),
      (retransLoop coins now w j).2.2 = dueDroppedCount coins now w j := by
  intro w
  induction w with
  | nil => intro j; rfl
  | cons e rest ih =>
      intro j
      simp only [retransLoop, dueDroppedCount]
      by_cases hdue : retransmitAfter ≤ now - e.2.sendTime
      · by_cases hc : coins j
        · simp [hdue, hc, ih]
        · simp [hdue, hc, ih]
          omega
      · simp [hdue, ih]

/-- Every sequence number in the scan's batch is a key of the scanned
window: only in-flight packets are ever retransmitted. -/
theorem retransLoop_batch_keys (coins : Nat → Bool) (now : Nat) :
    ∀ (w : List (Nat × Packet)) (j : Nat) (s : Nat),
      s ∈ (retransLoop coins now w j).2.1 → s ∈ keys w := by
  intro w
  induction w with
  | nil => intro j s h; exact absurd h (List.not_mem_nil s)
  | cons e rest ih =>
      intro j s
      simp only [retransLoop, keys, List.map_cons]
      split_ifs with hdue hc
      · intro h
        rcases List.mem_cons.mp h with h3 | h3
        · exact List.mem_cons.mpr (Or.inl h3)
        · exact List.mem_cons.mpr (Or.inr (ih (j + 1) s h3))
      · intro h
        exact List.mem_cons.mpr (Or.inr (ih (j + 1) s h))
      · intro h
        exact List.mem_cons.mpr (Or.inr (ih (j + 1) s h))

/-- Pointwise behaviour of the retransmission scan: the entry at position
`i` is rewritten to `sendTime := now`, `attempts + 1` exactly when it is due
and its coin flip delivers, and in that case its key joins the batch; in
every other case the entry is returned untouched. -/
theorem retransLoop_get (coins : Nat → Bool) (now : Nat) :
    ∀ (w : List (Nat × Packet)) (j i : Nat) (e : Nat × Packet), w[i]? = some e →
      (retransLoop coins now w j).1[i]? =
        some (if retransmitAfter ≤ now - e.2.sendTime ∧ coins (j + i)
              then (e.1, ⟨e.2.sequenceNumber, now, e.2.attempts + 1⟩) else e) ∧
      (retransmitAfter ≤ now - e.2.sendTime ∧ coins (j + i) →
        e.1 ∈ (retransLoop coins now w j).2.1) := by
  intro w
  induction w with
  | nil => intro j i e h; simp at h
  | cons f rest ih =>
      intro j i e h
      cases i with
      | zero =>
          have hfe : f = e := by simpa using h
          subst hfe
          by_cases hdue : retransmitAfter ≤ now - f.2.sendTime
          · by_cases hc : coins j = true
            · simp [retransLoop, hdue, hc]
            · simp [retransLoop, hdue, hc]
          · simp [retransLoop, hdue]
      | succ i =>
          have h2 : rest[i]? = some e := by simpa using h
          have h3 := ih (j + 1) i e h2
          have hidx : j + 1 + i = j + (i + 1) := by omega
          rw [hidx] at h3
          by_cases hdue : retransmitAfter ≤ now - f.2.sendTime
          · by_cases hc : coins j = true
            · simp only [retransLoop, if_pos hdue, if_pos hc]
              exact ⟨by simpa using h3.1, fun hcon => List.mem_cons_of_mem _ (h3.2 hcon)⟩
            · simp only [retransLoop, if_pos hdue, if_neg hc]
              exact ⟨by simpa using h3.1, h3.2⟩
          · simp only [retransLoop, if_neg hdue]
            exact ⟨by simpa using h3.1, h3.2⟩

/-- An acked token leaves the window size unchanged. -/
theorem ackStep_windowSize (now : Nat) (c : Client) (a : Option Int) :
    (ackStep now c a).windowSize = c.windowSize := by
  cases a <;> rfl

/-- An acked token never lengthens the window. -/
theorem ackStep_window_length (now : Nat) (c : Client) (a : Option Int) :
    (ackStep now c a).window.length ≤ c.window.length := by
  cases a with
  | none => exact Nat.le_refl _
  | some s => exact List.length_filter_le _ _

/-- Processing an ACK batch leaves the window size unchanged. -/
theorem processAcks_windowSize (now : Nat) :
    ∀ (l : List (Option Int)) (c : Client),
      (processAcks now l c).windowSize = c.windowSize := by
  intro l
  induction l with
  | nil => intro c; rfl
  | cons a rest ih =>
      intro c
      have h1 : processAcks now (a :: rest) c = processAcks now rest (ackStep now c a) := rfl
      rw [h1, ih (ackStep now c a), ackStep_windowSize]

/-- Processing an ACK batch never lengthens the window. -/
theorem processAcks_window_length (now : Nat) :
    ∀ (l : List (Option Int)) (c : Client),
      (processAcks now l c).window.length ≤ c.window.length := by
  intro l
  induction l with
  | nil => intro c; exact Nat.le_refl _
  | cons a rest ih =>
      intro c
      have h1 : processAcks now (a :: rest) c = processAcks now rest (ackStep now c a) := rfl
      rw [h1]
      exact Nat.le_trans (ih (ackStep now c a)) (ackStep_window_length now c a)

/-- Window adjustment does not touch the window contents. -/
theorem adjustWindow_window (now : Nat) (c : Client) :
    (adjustWindow now c).window = c.window := by
  simp only [adjustWindow]
  split_ifs <;> rfl

/-- Window adjustment keeps the size at most `maxWindowSize`. -/
theorem adjustWindow_windowSize_le (now : Nat) (c : Client)
    (h : c.windowSize ≤ maxWindowSize) :
    (adjustWindow now c).windowSize ≤ maxWindowSize := by
  simp only [adjustWindow]
  split_ifs with h1 h2
  · exact Nat.min_le_right (c.windowSize + 1) maxWindowSize
  · exact h
  · dsimp only
    have h3 : c.windowSize / 2 ≤ maxWindowSize := Nat.le_trans (Nat.div_le_self _ _) h
    exact Nat.max_le.mpr ⟨h3, by norm_num [maxWindowSize, minWindowSize]⟩

/-- Structural invariant of the sender: at every reachable state the window
holds at most `maxWindowSize` entries and the window size never exceeds
`maxWindowSize`. -/
theorem reachable_window_bound :
    ∀ (c : Client), Reachable c →
      c.window.length ≤ maxWindowSize ∧ c.windowSize ≤ maxWindowSize := by
  rintro c ⟨t0, h⟩
  induction h with
  | refl => exact ⟨by norm_num [NewClient], by norm_num [NewClient, minWindowSize, maxWindowSize]⟩
  | @tail b d hab hbc ih =>
      obtain ⟨hl, hw⟩ := ih
      cases hbc with
      | send coins now =>
          by_cases hfull : b.window.length ≥ b.windowSize
          · simp only [sendNewPackets, if_pos hfull]
            exact ⟨hl, hw⟩
          · simp only [sendNewPackets, if_neg hfull]
            constructor
            · have h3 := sendLoop_window_length coins now (b.windowSize - b.window.length) 0 b
              omega
            · rw [sendLoop_windowSize]
              exact hw
      | retransmit coins now =>
          constructor
          · rw [handleRetransmissions_window, retransLoop_length]
            exact hl
          · rw [handleRetransmissions_windowSize]
            exact hw
      | acks now l =>
          exact ⟨Nat.le_trans (processAcks_window_length now l b) hl,
                 by rw [processAcks_windowSize]; exact hw⟩
      | adjust now =>
          exact ⟨by rw [adjustWindow_window]; exact hl,
                 adjustWindow_windowSize_le now b hw⟩

/-- C1: counterexample.  A reachable five-step trace (fill a window of 10,
ack one packet, grow the window to 11, refill to 11 in flight, then a late
`adjustWindow` halves the size back to 10) ends with 11 in-flight packets
against a window size of 10, so `|inFlight| ≤ size` is not an invariant of
the four-operation machine. -/
theorem c1_window_occupancy_counterexample :
    Reachable ovState5 ∧
    ovState5.window.length = 11 ∧ ovState5.windowSize = 10 ∧
    ¬ (ovState5.window.length ≤ ovState5.windowSize) := by
  refine ⟨⟨0, ?_⟩, by decide, by decide, by decide⟩
  have s1 : Step (NewClient 0) ovState1 := Step.send coinsTrue 0 (NewClient 0)
  have s2 : Step ovState1 ovState2 := Step.acks 0 [some 0] ovState1
  have s3 : Step ovState2 ovState3 := Step.adjust 50 ovState2
  have s4 : Step ovState3 ovState4 := Step.send coinsTrue 0 ovState3
  have s5 : Step ovState4 ovState5 := Step.adjust 200 ovState4
  exact Relation.ReflTransGen.tail
    (Relation.ReflTransGen.tail
      (Relation.ReflTransGen.tail
        (Relation.ReflTransGen.tail (Relation.ReflTransGen.single s1) s2) s3) s4) s5

/-- C1 (amended): occupancy can exceed the window size only through
`adjustWindow`'s shrink.  At every reachable state `|inFlight|` and `size`
are bounded by `maxWindowSize`; `sendNewPackets` preserves
`|inFlight| ≤ size`; `handleRetransmissions` preserves the occupancy
exactly; `processAcks` never increases occupancy and leaves the size
alone. -/
theorem c1_window_occupancy_amended :
    (∀ (c : Client), Reachable c →
      c.window.length ≤ maxWindowSize ∧ c.windowSize ≤ maxWindowSize) ∧
    (∀ (coins : Nat → Bool) (now : Nat) (c : Client),
      c.window.length ≤ c.windowSize →
        (sendNewPackets coins now c).1.window.length ≤
          (sendNewPackets coins now c).1.windowSize) ∧
    (∀ (coins : Nat → Bool) (now : Nat) (c : Client),
      (handleRetransmissions coins now c).1.window.length = c.window.length) ∧
    (∀ (now : Nat) (l : List (Option Int)) (c : Client),
      (processAcks now l c).window.length ≤ c.window.length ∧
      (processAcks now l c).windowSize = c.windowSize) := by
  refine ⟨reachable_window_bound, ?_, ?_, ?_⟩
  · intro coins now c hle
    by_cases hfull : c.window.length ≥ c.windowSize
    · simp only [sendNewPackets, if_pos hfull]
      exact hle
    · simp only [sendNewPackets, if_neg hfull]
      rw [sendLoop_windowSize]
      have h3 := sendLoop_window_length coins now (c.windowSize - c.window.length) 0 c
      omega
  · intro coins now c
    rw [handleRetransmissions_window, retransLoop_length]
  · intro now l c
    exact ⟨processAcks_window_length now l c, processAcks_windowSize now l c⟩

/-- C1: witness for `c1_window_occupancy_amended` at a fresh client. -/
theorem c1_window_occupancy_amended_witness :
    ((NewClient 3).window.length ≤ maxWindowSize ∧
      (NewClient 3).windowSize ≤ maxWindowSize) ∧
    (sendNewPackets coinsTrue 0 (NewClient 3)).1.window.length ≤
      (sendNewPackets coinsTrue 0 (NewClient 3)).1.windowSize :=
  ⟨c1_window_occupancy_amended.1 (NewClient 3) ⟨3, Relation.ReflTransGen.refl⟩,
   c1_window_occupancy_amended.2.1 coinsTrue 0 (NewClient 3) (by decide)⟩

/-- C2: counterexample.  On the reachable state `oneInFlight` (one packet
with `sendTime = 0`, `attempts = 1`), the retransmission scan at time 200
finds the packet due and the coin flip drops it: `totalDropped` grows by
one, but the packet keeps `sendTime = 0` and `attempts = 1` — the claimed
`sendTime := now`, `attempts + 1` update does not happen on the dropped
branch. -/
theorem c2_retransmit_drop_counterexample :
    Reachable oneInFlight ∧
    oneInFlight.window = [(0, ⟨0, 0, 1⟩)] ∧
    retransmitAfter ≤ 200 - (0 : Nat) ∧
    retryAfterDrop.1.totalDropped = oneInFlight.totalDropped + 1 ∧
    retryAfterDrop.1.window = [(0, ⟨0, 0, 1⟩)] ∧
    ¬ ((0, (⟨0, 200, 2⟩ : Packet)) ∈ retryAfterDrop.1.window) := by
  refine ⟨⟨0, Relation.ReflTransGen.single (Step.send coinsFirst 0 (NewClient 0))⟩,
    by decide, by decide, by decide, by decide, by decide⟩

/-- C2 (amended): every due in-flight packet is re-run through the drop
simulator; a deliverable one gets `sendTime := now`, `attempts + 1`, stays
in the window and its number joins the outgoing batch; a simulated-dropped
one stays in the window with `sendTime` and `attempts` unchanged and is
counted in `totalDroppedSim`; non-due entries are untouched. -/
theorem c2_retransmit_pointwise :
    ∀ (coins : Nat → Bool) (now : Nat) (c : Client),
      (handleRetransmissions coins now c).1.window.length = c.window.length ∧
      (handleRetransmissions coins now c).1.totalDropped =
        c.totalDropped + dueDroppedCount coins now c.window 0 ∧
      (∀ (i : Nat) (e : Nat × Packet), c.window[i]? = some e →
        (handleRetransmissions coins now c).1.window[i]? =
          some (if retransmitAfter ≤ now - e.2.sendTime ∧ coins i
                then (e.1, ⟨e.2.sequenceNumber, now, e.2.attempts + 1⟩) else e) ∧
        (retransmitAfter ≤ now - e.2.sendTime ∧ coins i →
          e.1 ∈ (handleRetransmissions coins now c).2)) := by
  intro coins now c
  refine ⟨?_, ?_, ?_⟩
  · rw [handleRetransmissions_window, retransLoop_length]
  · rw [handleRetransmissions_totalDropped, retransLoop_drops]
  · intro i e he
    have h3 := retransLoop_get coins now c.window 0 i e he
    rw [Nat.zero_add] at h3
    exact ⟨by rw [handleRetransmissions_window]; exact h3.1,
           by rw [handleRetransmissions_batch]; exact h3.2⟩

/-- C2: witness for `c2_retransmit_pointwise` on the due-and-dropped scan of
`oneInFlight`. -/
theorem c2_retransmit_pointwise_witness :
    (handleRetransmissions coinsNone 200 oneInFlight).1.window[0]? =
      some (if retransmitAfter ≤ 200 - (0 : Nat) ∧ coinsNone 0
            then ((0 : Nat), (⟨0, 200, 2⟩ : Packet)) else ((0 : Nat), ⟨0, 0, 1⟩)) :=
  ((c2_retransmit_pointwise coinsNone 200 oneInFlight).2.2 0 (0, ⟨0, 0, 1⟩) (by decide)).1

/-- C6: an admission attempt whose coin flip drops it is not inserted into
the window (every window key after `sendNewPackets` is an old key or a
member of the written batch), the attempt is counted (`totalSent` growth is
batch length plus `totalDropped` growth), and the retransmission batch only
ever contains keys of the in-flight window, so a number dropped at
admission is never retransmitted. -/
theorem c6_dropped_never_retried :
    ∀ (coins : Nat → Bool) (now : Nat) (c : Client),
      (∀ s, s ∈ keys (sendNewPackets coins now c).1.window →
        s ∈ keys c.window ∨ s ∈ (sendNewPackets coins now c).2) ∧
      ((sendNewPackets coins now c).1.totalSent + c.totalDropped =
        c.totalSent + (sendNewPackets coins now c).2.length +
          (sendNewPackets coins now c).1.totalDropped) ∧
      (∀ s, s ∈ (handleRetransmissions coins now c).2 → s ∈ keys c.window) := by
  intro coins now c
  refine ⟨?_, ?_, ?_⟩
  · by_cases hfull : c.window.length ≥ c.windowSize
    · simp only [sendNewPackets, if_pos hfull]
      exact fun s h => Or.inl h
    · simp only [sendNewPackets, if_neg hfull]
      exact sendLoop_keys coins now (c.windowSize - c.window.length) 0 c
  · by_cases hfull : c.window.length ≥ c.windowSize
    · simp [sendNewPackets, if_pos hfull]
    · simp only [sendNewPackets, if_neg hfull]
      exact sendLoop_counts coins now (c.windowSize - c.window.length) 0 c
  · intro s
    rw [handleRetransmissions_batch]
    exact retransLoop_batch_keys coins now c.window 0 s

/-- C6: witness for `c6_dropped_never_retried`: key 5 of the first full
admission is in the written batch, and the lone retransmitted number of
`oneInFlight` was an in-flight key. -/
theorem c6_dropped_never_retried_witness :
    ((5 : Nat) ∈ keys (NewClient 0).window ∨
      (5 : Nat) ∈ (sendNewPackets coinsTrue 0 (NewClient 0)).2) ∧
    ((0 : Nat) ∈ keys oneInFlight.window) :=
  ⟨(c6_dropped_never_retried coinsTrue 0 (NewClient 0)).1 5 (by decide),
   (c6_dropped_never_retried coinsTrue 200 oneInFlight).2.2 0 (by decide)⟩

/-- With drop probability 1 the comparison `rand.Float64() > dropProbability`
is false for every draw below 1. -/
theorem shouldDeliver_one (r : ℚ) (h : r < 1) : shouldDeliver r 1 = false := by
  simp only [shouldDeliver, decide_eq_false_iff_not]
  exact not_lt.mpr (le_of_lt h)

/-- A valid draw stream at drop probability 1 produces the all-drop coin
stream. -/
theorem coinsOf_one (rs : Nat → ℚ) (h : DrawOK rs) : coinsOf rs 1 = coinsNone := by
  funext i
  show shouldDeliver (rs i) 1 = coinsNone i
  rw [shouldDeliver_one (rs i) (h i).2]
  rfl

/-- Field-wise behaviour of the admission loop when every coin flip drops:
the window (and all window bookkeeping) is untouched, nothing is written,
and `totalSent`, `totalDropped` and `nextSequence` each advance by
`min fuel (targetPackets - totalSent)`. -/
theorem sendLoop_allFalse (now : Nat) :
    ∀ (fuel i : Nat) (c : Client),
      (sendLoop coinsNone now fuel i c).1.window = c.window ∧
      (sendLoop coinsNone now fuel i c).1.windowStart = c.windowStart ∧
      (sendLoop coinsNone now fuel i c).1.windowSize = c.windowSize ∧
      (sendLoop coinsNone now fuel i c).1.lastAckTime = c.lastAckTime ∧
      (sendLoop coinsNone now fuel i c).1.totalSent =
        c.totalSent + min fuel (targetPackets - c.totalSent) ∧
      (sendLoop coinsNone now fuel i c).1.totalDropped =
        c.totalDropped + min fuel (targetPackets - c.totalSent) ∧
      (sendLoop coinsNone now fuel i c).1.nextSequence =
        c.nextSequence + min fuel (targetPackets - c.totalSent) ∧
      (sendLoop coinsNone now fuel i c).2 = [] := by
  intro fuel
  induction fuel with
  | zero => intro i c; simp [sendLoop]
  | succ n ih =>
      intro i c
      simp only [sendLoop]
      by_cases h1 : c.totalSent < targetPackets
      · rw [if_pos h1]
        simp only [coinsNone, Bool.false_eq_true, if_false]
        obtain ⟨w1, w2, w3, w4, w5, w6, w7, w8⟩ := ih (i + 1) (admitDrop c)
        rw [admitDrop_totalSent] at w5 w6 w7
        rw [admitDrop_totalDropped] at w6
        rw [admitDrop_nextSequence] at w7
        refine ⟨by rw [w1, admitDrop_window], by rw [w2]; rfl, by rw [w3]; rfl,
                by rw [w4]; rfl, by rw [w5]; omega, by rw [w6]; omega,
                by rw [w7]; omega, w8⟩
      · rw [if_neg h1]
        have h2 : min (n + 1) (targetPackets - c.totalSent) = 0 := by omega
        rw [h2]
        exact ⟨rfl, rfl, rfl, rfl, rfl, rfl, rfl, rfl⟩

/-- Field-wise characterisation of `n` admission ticks under permanent
simulated drop: the window stays empty, the window size stays at its
minimum, and the three counters all equal `min (10 n) targetPackets`. -/
theorem dropAllIter_fields :
    ∀ n, (dropAllIter n).window = [] ∧
      (dropAllIter n).windowSize = minWindowSize ∧
      (dropAllIter n).lastAckTime = 0 ∧
      (dropAllIter n).windowStart = 0 ∧
      (dropAllIter n).totalSent = min (minWindowSize * n) targetPackets ∧
      (dropAllIter n).totalDropped = (dropAllIter n).totalSent ∧
      (dropAllIter n).nextSequence = (dropAllIter n).totalSent := by
  intro n
  induction n with
  | zero =>
      refine ⟨rfl, rfl, rfl, rfl, ?_, rfl, rfl⟩
      show (0 : Nat) = min (minWindowSize * 0) targetPackets
      simp
  | succ n ih =>
      obtain ⟨e1, e2, e3, e4, e5, e6, e7⟩ := ih
      have hstep : dropAllIter (n + 1) = dropAllStep (dropAllIter n) :=
        Function.iterate_succ_apply' dropAllStep n (NewClient 0)
      have hlen : ¬ ((dropAllIter n).window.length ≥ (dropAllIter n).windowSize) := by
        rw [e1, e2]
        norm_num [minWindowSize]
      rw [hstep]
      simp only [dropAllStep, sendNewPackets, if_neg hlen]
      obtain ⟨w1, w2, w3, w4, w5, w6, w7, w8⟩ :=
        sendLoop_allFalse 0 ((dropAllIter n).windowSize - (dropAllIter n).window.length)
          0 (dropAllIter n)
      have hfuel : (dropAllIter n).windowSize - (dropAllIter n).window.length
          = minWindowSize := by
        rw [e1, e2]
        rfl
      rw [hfuel] at w1 w2 w3 w4 w5 w6 w7 w8 ⊢
      refine ⟨by rw [w1, e1], by rw [w3, e2], by rw [w4, e3], by rw [w2, e4],
              ?_, ?_, ?_⟩
      · rw [w5, e5]
        clear w1 w2 w3 w4 w5 w6 w7 w8 hstep hlen hfuel e1 e2 e3 e4 e5 e6 e7
        simp only [minWindowSize, targetPackets]
        omega
      · rw [w6, w5, e6, e5]
      · rw [w7, w5, e7, e5]

/-- Each permanently dropping admission tick is a step of the drop
probability 1 machine. -/
theorem dropAllStep_stepDrop (c : Client) : StepDrop 1 c (dropAllStep c) := by
  have hOK : DrawOK (fun _ => (0 : ℚ)) := fun i => ⟨le_refl 0, by norm_num⟩
  have h1 : coinsOf (fun _ => (0 : ℚ)) 1 = coinsNone := coinsOf_one _ hOK
  have h2 := StepDrop.send (p := 1) (fun _ => (0 : ℚ)) 0 c hOK
  rw [h1] at h2
  exact h2

/-- The permanently dropping run is reachable in the drop probability 1
machine. -/
theorem dropAllIter_reachable :
    ∀ n, Relation.ReflTransGen (StepDrop 1) (NewClient 0) (dropAllIter n) := by
  intro n
  induction n with
  | zero => exact Relation.ReflTransGen.refl
  | succ n ih =>
      refine Relation.ReflTransGen.tail ih ?_
      have h3 : dropAllIter (n + 1) = dropAllStep (dropAllIter n) :=
        Function.iterate_succ_apply' dropAllStep n (NewClient 0)
      rw [h3]
      exact dropAllStep_stepDrop (dropAllIter n)

/-- The permanently dropping run is also a run of the unconstrained
sender machine. -/
theorem dropAllIter_reachable_plain :
    ∀ n, Relation.ReflTransGen Step (NewClient 0) (dropAllIter n) := by
  intro n
  induction n with
  | zero => exact Relation.ReflTransGen.refl
  | succ n ih =>
      refine Relation.ReflTransGen.tail ih ?_
      have h3 : dropAllIter (n + 1) = dropAllStep (dropAllIter n) :=
        Function.iterate_succ_apply' dropAllStep n (NewClient 0)
      rw [h3]
      exact Step.send coinsNone 0 (dropAllIter n)

/-- Under drop probability 1 the window is empty at every reachable
state. -/
theorem reachableDrop_one_window_empty :
    ∀ (c : Client), ReachableDrop 1 c → c.window = [] := by
  rintro c ⟨t0, h⟩
  induction h with
  | refl => rfl
  | @tail b d hab hbc ih =>
      cases hbc with
      | send rs now cb hOK =>
          rw [coinsOf_one rs hOK]
          by_cases hfull : b.window.length ≥ b.windowSize
          · simp only [sendNewPackets, if_pos hfull]
            exact ih
          · simp only [sendNewPackets, if_neg hfull]
            rw [(sendLoop_allFalse now _ 0 b).1]
            exact ih
      | retransmit rs now cb hOK =>
          rw [handleRetransmissions_window, ih]
          rfl
      | acks now l =>
          have hlen := processAcks_window_length now l b
          rw [ih] at hlen
          simp only [List.length_nil, Nat.le_zero] at hlen
          exact List.length_eq_zero.mp hlen
      | adjust now =>
          rw [adjustWindow_window]
          exact ih

/-- C3: counterexample to "the sender never reaches its completion
condition".  Under drop probability 1, after 50000 admission ticks the
reachable state has `totalSent = targetPackets` — every attempt was
simulated-dropped, yet `totalSent` counts attempts, so the completion check
`totalSent >= targetPackets` of the main loop holds. -/
theorem c3_full_drop_counterexample :
    ReachableDrop 1 (dropAllIter 50000) ∧
    (dropAllIter 50000).totalSent = targetPackets ∧
    isComplete (dropAllIter 50000) = true := by
  have hts : (dropAllIter 50000).totalSent = targetPackets := by
    have h5 := (dropAllIter_fields 50000).2.2.2.2.1
    rw [h5]
    norm_num [minWindowSize, targetPackets]
  refine ⟨⟨0, dropAllIter_reachable 50000⟩, hts, ?_⟩
  simp [isComplete, hts]

/-- C3 (amended): with `dropProbability = 1.0` every admission attempt is
simulated-dropped (the coin `rand.Float64() > 1.0` is false for every valid
draw) and `inFlight` is empty at every reachable state; but the sender does
reach its completion condition, because `totalSent` counts dropped
attempts: after 50000 admission ticks `totalSent = targetPackets` and
`isComplete` holds. -/
theorem c3_full_drop_amended :
    (∀ (rs : Nat → ℚ), DrawOK rs → ∀ i, coinsOf rs 1 i = false) ∧
    (∀ (c : Client), ReachableDrop 1 c → c.window = []) ∧
    ReachableDrop 1 (dropAllIter 50000) ∧
    isComplete (dropAllIter 50000) = true := by
  refine ⟨?_, reachableDrop_one_window_empty, ⟨0, dropAllIter_reachable 50000⟩, ?_⟩
  · intro rs h i
    exact congrFun (coinsOf_one rs h) i
  · have hts : (dropAllIter 50000).totalSent = targetPackets := by
      have h5 := (dropAllIter_fields 50000).2.2.2.2.1
      rw [h5]
      norm_num [minWindowSize, targetPackets]
    simp [isComplete, hts]

/-- C3: witness for `c3_full_drop_amended` on the constant-zero draw stream
and a fresh client. -/
theorem c3_full_drop_amended_witness :
    coinsOf (fun _ => (0 : ℚ)) 1 0 = false ∧ (NewClient 5).window = [] :=
  ⟨c3_full_drop_amended.1 (fun _ => 0) (fun _ => ⟨le_refl 0, by norm_num⟩) 0,
   c3_full_drop_amended.2.1 (NewClient 5) ⟨5, Relation.ReflTransGen.refl⟩⟩

/-- C10: in every `sendNewPackets` call each attempt bumps `totalSent`
exactly once whether delivered or dropped (the growth of `totalSent` is the
batch length plus the growth of `totalDropped`), and in the all-drop run
nothing is ever written while completion is reached:
`totalSent - totalDropped = 0` at a reachable completed state. -/
theorem c10_sent_counts_attempts :
    (∀ (coins : Nat → Bool) (now : Nat) (c : Client),
      (sendNewPackets coins now c).1.totalSent + c.totalDropped =
        c.totalSent + (sendNewPackets coins now c).2.length +
          (sendNewPackets coins now c).1.totalDropped) ∧
    (∀ n, (sendNewPackets coinsNone 0 (dropAllIter n)).2 = []) ∧
    Reachable (dropAllIter 50000) ∧
    isComplete (dropAllIter 50000) = true ∧
    (dropAllIter 50000).totalSent - (dropAllIter 50000).totalDropped = 0 := by
  refine ⟨?_, ?_, ⟨0, dropAllIter_reachable_plain 50000⟩, ?_, ?_⟩
  · intro coins now c
    by_cases hfull : c.window.length ≥ c.windowSize
    · simp [sendNewPackets, if_pos hfull]
    · simp only [sendNewPackets, if_neg hfull]
      exact sendLoop_counts coins now (c.windowSize - c.window.length) 0 c
  · intro n
    obtain ⟨e1, e2, _⟩ := dropAllIter_fields n
    have hlen : ¬ ((dropAllIter n).window.length ≥ (dropAllIter n).windowSize) := by
      rw [e1, e2]
      norm_num [minWindowSize]
    simp only [sendNewPackets, if_neg hlen]
    exact (sendLoop_allFalse 0 _ 0 (dropAllIter n)).2.2.2.2.2.2.2
  · have hts : (dropAllIter 50000).totalSent = targetPackets := by
      have h5 := (dropAllIter_fields 50000).2.2.2.2.1
      rw [h5]
      norm_num [minWindowSize, targetPackets]
    simp [isComplete, hts]
  · have h6 := (dropAllIter_fields 50000).2.2.2.2.2.1
    rw [h6]
    exact Nat.sub_self _

/-- C10: witness for `c10_sent_counts_attempts` at a one-delivery
admission call. -/
theorem c10_sent_counts_attempts_witness :
    (sendNewPackets coinsFirst 0 (NewClient 0)).1.totalSent + (NewClient 0).totalDropped =
      (NewClient 0).totalSent + (sendNewPackets coinsFirst 0 (NewClient 0)).2.length +
        (sendNewPackets coinsFirst 0 (NewClient 0)).1.totalDropped :=
  c10_sent_counts_attempts.1 coinsFirst 0 (NewClient 0)

/-- C7: counterexample.  The gap-tracker server's handshake replies
`success` to a first line that is not `network`, so "`success` only if the
initial line is `network`" fails on `handleConnection` in
cmd/server/main.go. -/
theorem c7_handshake_counterexample :
    handshakeReply (some badLine) = some successMsg ∧ badLine ≠ networkMsg := by
  exact ⟨rfl, by decide⟩

/-- C7 (amended): the gap-tracker server (`handleConnection`,
cmd/server/main.go) replies `success` to every first line without
validating it; only the map-based draft `Server.handleConnection` enforces
the handshake, replying `success` exactly when the trimmed first line is
`network` and otherwise terminating the connection without a reply.  Both
send nothing when no line arrives. -/
theorem c7_handshake_amended :
    (∀ s, handshakeReply (some s) = some successMsg) ∧
    handshakeReply none = none ∧
    (∀ s, serverHandshakeReply (some s) = some successMsg ↔ s.trim = networkMsg) ∧
    serverHandshakeReply none = none := by
  refine ⟨fun s => rfl, rfl, ?_, rfl⟩
  intro s
  by_cases h : s.trim = networkMsg
  · simp [serverHandshakeReply, h]
  · simp [serverHandshakeReply, h]

/-- C7: witness for `c7_handshake_amended` at a concrete bad line and the
literal `network`. -/
theorem c7_handshake_amended_witness :
    handshakeReply (some badLine) = some successMsg ∧
    (serverHandshakeReply (some networkMsg) = some successMsg ↔
      networkMsg.trim = networkMsg) :=
  ⟨c7_handshake_amended.1 badLine, c7_handshake_amended.2.2.1 networkMsg⟩
